import Mathlib

/-!
# Verification of the quant backtesting core

Shallow embedding, over `ℚ`, of the signal/backtest/metrics/risk/portfolio
core of the repository:

* `src/quant/strategies/base.py` (`Signal`, `Position`, `Strategy`),
* `src/quant/strategies/momentum_strategy.py`, `mean_reversion.py`,
  `breakout.py` (the three reference strategies' `generate_signals` and
  `calculate_position_size`),
* `src/quant/backtesting/engine.py` (`BacktestEngine.run`, `Trade`),
* `src/quant/backtesting/metrics.py` (`PerformanceMetrics.calculate`),
* `src/quant/risk/var.py` (`VaRCalculator.historical_var`),
* `src/quant/portfolio/portfolio.py` (`Holding`, `Portfolio.buy`/`sell`).

Modelling conventions:

* Python floats are modelled as rationals (`ℚ`); `numpy`/`polars`
  arithmetic is exact here.  Division by zero is total in `ℚ` (`x / 0 = 0`)
  where Python would raise `ZeroDivisionError`; no claim depends on it.
* A polars `DataFrame` is a `Frame`: a list of column names (for the
  strategies' missing-column checks) together with rows, each row a total
  valuation `String → ℚ` of the named columns.  Timestamps are opaque and
  modelled as `ℚ` values of a `"timestamp"` column.
* Nulls introduced by `shift(1)` and by rolling windows are modelled with
  `Option`; a polars `when` branch whose condition is null is not taken,
  which coincides with treating the missing-previous-row / warm-up
  conditions as `false` (polars Kleene logic never lets such a condition
  evaluate to `true`).
* Nondeterministic fields of the source (`uuid` trade ids,
  `datetime.now()` transaction timestamps) and the database side effects
  are omitted; they carry no information the claims touch.
-/

namespace Quant

/-- A polars DataFrame: the set of column names present, plus the rows.
Each row is a total valuation of column names (the source's per-row
`row[col]` / `row.get(col, default)` access). -/
structure Frame where
  cols : List String
  rows : List (String → ℚ)

/-- The projection of one row of the strategies' output frame that
`BacktestEngine.run` reads back: `row.get("timestamp", "")`,
`row["close"]`, `row.get("signal", 0)`.  Signals are the `Signal` enum
values of `strategies/base.py`: BUY = 1, SELL = -1, HOLD = 0. -/
structure SigRow where
  timestamp : ℚ
  close : ℚ
  signal : Int
deriving DecidableEq, Repr, Inhabited

/-- Pair every row with its predecessor (`shift(1)`): the first row has
no predecessor (polars null). -/
def withPrev {α : Type} (rows : List α) : List (Option α × α) :=
  (none :: rows.map some).zip rows

/-- `ValueError` message raised by the strategies' required-indicator
checks. -/
def missingMsg (c : String) : String :=
  "Required indicator " ++ c ++ " not found. Calculate indicators first."

/-! ## Momentum strategy (`momentum_strategy.py`) -/

/-- Constructor arguments of `MomentumStrategy`. -/
structure MomentumParams where
  rsiPeriod : Nat := 14
  rsiOversold : ℚ := 30
  rsiOverbought : ℚ := 70
  fastMa : Nat := 50
  slowMa : Nat := 200
  positionSizePct : ℚ := 1/10

def rsiColName (p : MomentumParams) : String := "RSI_" ++ toString p.rsiPeriod
def fastColName (p : MomentumParams) : String := "SMA_" ++ toString p.fastMa
def slowColName (p : MomentumParams) : String := "SMA_" ++ toString p.slowMa

/-- Working column `uptrend`: fast MA above slow MA. -/
def momentumUptrend (p : MomentumParams) (row : String → ℚ) : Bool :=
  decide (row (fastColName p) > row (slowColName p))

/-- Working column `rsi_cross_above_oversold`; null (hence never true) on
the first row, where `shift(1)` is null. -/
def momentumCrossAboveOversold (p : MomentumParams)
    (prev : Option (String → ℚ)) (row : String → ℚ) : Bool :=
  match prev with
  | none => false
  | some pr =>
      decide (row (rsiColName p) > p.rsiOversold) &&
      decide (pr (rsiColName p) ≤ p.rsiOversold)

/-- Working column `rsi_cross_above_overbought`. -/
def momentumCrossAboveOverbought (p : MomentumParams)
    (prev : Option (String → ℚ)) (row : String → ℚ) : Bool :=
  match prev with
  | none => false
  | some pr =>
      decide (row (rsiColName p) > p.rsiOverbought) &&
      decide (pr (rsiColName p) ≤ p.rsiOverbought)

/-- Working column `ma_bearish_cross`. -/
def momentumMaBearishCross (p : MomentumParams)
    (prev : Option (String → ℚ)) (row : String → ℚ) : Bool :=
  match prev with
  | none => false
  | some pr =>
      decide (row (fastColName p) < row (slowColName p)) &&
      decide (pr (fastColName p) ≥ pr (slowColName p))

/-- The BUY condition of the momentum `when` chain:
`rsi_cross_above_oversold & uptrend`. -/
def momentumBuyCond (p : MomentumParams)
    (prev : Option (String → ℚ)) (row : String → ℚ) : Bool :=
  momentumCrossAboveOversold p prev row && momentumUptrend p row

/-- The SELL condition of the momentum `when` chain:
`rsi_cross_above_overbought | ma_bearish_cross`. -/
def momentumSellCond (p : MomentumParams)
    (prev : Option (String → ℚ)) (row : String → ℚ) : Bool :=
  momentumCrossAboveOverbought p prev row || momentumMaBearishCross p prev row

/-- The `when/otherwise` chain of `MomentumStrategy.generate_signals`:
the BUY branch is checked first, then the SELL branch, else HOLD. -/
def momentumSignal (p : MomentumParams)
    (prev : Option (String → ℚ)) (row : String → ℚ) : Int :=
  if momentumBuyCond p prev row then 1
  else if momentumSellCond p prev row then -1
  else 0

/-- `MomentumStrategy.generate_signals`: validate the required indicator
columns (in source order, raising on the first missing one), then compute
the per-row signal.  The output frame is projected to the columns the
engine reads (`timestamp`, `close`, `signal`); the dropped working columns
never escape, as in the source. -/
def momentumGenerateSignals (p : MomentumParams) (f : Frame) :
    Except String (List SigRow) :=
  if rsiColName p ∉ f.cols then .error (missingMsg (rsiColName p))
  else if fastColName p ∉ f.cols then .error (missingMsg (fastColName p))
  else if slowColName p ∉ f.cols then .error (missingMsg (slowColName p))
  else .ok <| (withPrev f.rows).map fun pr =>
    { timestamp := pr.2 "timestamp"
      close := pr.2 "close"
      signal := momentumSignal p pr.1 pr.2 }

/-! ## Mean reversion strategy (`mean_reversion.py`) -/

/-- Constructor arguments of `MeanReversionStrategy`. -/
structure MeanReversionParams where
  bbPeriod : Nat := 20
  bbStd : ℚ := 2
  positionSizePct : ℚ := 1/10

/-- Working column `at_lower_band`: `close <= BB_lower`. -/
def meanRevAtLowerBand (row : String → ℚ) : Bool :=
  decide (row "close" ≤ row "BB_lower")

/-- Working column `at_upper_band`: `close >= BB_upper`. -/
def meanRevAtUpperBand (row : String → ℚ) : Bool :=
  decide (row "close" ≥ row "BB_upper")

/-- Working column `was_below_middle`: previous close below the current
row's `BB_middle`; null (never true) on the first row. -/
def meanRevWasBelowMiddle (prev : Option (String → ℚ)) (row : String → ℚ) : Bool :=
  match prev with
  | none => false
  | some pr => decide (pr "close" < row "BB_middle")

/-- Working column `at_or_above_middle`: `close >= BB_middle`. -/
def meanRevAtOrAboveMiddle (row : String → ℚ) : Bool :=
  decide (row "close" ≥ row "BB_middle")

/-- The BUY condition of the mean-reversion `when` chain. -/
def meanRevBuyCond (row : String → ℚ) : Bool :=
  meanRevAtLowerBand row

/-- The SELL condition of the mean-reversion `when` chain. -/
def meanRevSellCond (prev : Option (String → ℚ)) (row : String → ℚ) : Bool :=
  meanRevAtUpperBand row ||
    (meanRevWasBelowMiddle prev row && meanRevAtOrAboveMiddle row)

/-- The `when/otherwise` chain of `MeanReversionStrategy.generate_signals`:
BUY branch first, then SELL, else HOLD. -/
def meanRevSignal (prev : Option (String → ℚ)) (row : String → ℚ) : Int :=
  if meanRevBuyCond row then 1
  else if meanRevSellCond prev row then -1
  else 0

/-- `MeanReversionStrategy.generate_signals`. -/
def meanRevGenerateSignals (_p : MeanReversionParams) (f : Frame) :
    Except String (List SigRow) :=
  if "BB_upper" ∉ f.cols then .error (missingMsg "BB_upper")
  else if "BB_lower" ∉ f.cols then .error (missingMsg "BB_lower")
  else if "BB_middle" ∉ f.cols then .error (missingMsg "BB_middle")
  else .ok <| (withPrev f.rows).map fun pr =>
    { timestamp := pr.2 "timestamp"
      close := pr.2 "close"
      signal := meanRevSignal pr.1 pr.2 }

/-! ## Breakout strategy (`breakout.py`) -/

/-- Constructor arguments of `BreakoutStrategy`. -/
structure BreakoutParams where
  lookbackPeriod : Nat := 20
  volumeMultiplier : ℚ := 3/2
  positionSizePct : ℚ := 1/10

/-- `max` of a nonempty list (`np`-style fold); 0 on `[]`, which the
rolling windows below never pass. -/
def listMax : List ℚ → ℚ
  | [] => 0
  | x :: xs => xs.foldl max x

/-- `min` of a nonempty list; 0 on `[]`. -/
def listMin : List ℚ → ℚ
  | [] => 0
  | x :: xs => xs.foldl min x

/-- Sum of a list of rationals. -/
def listSum (l : List ℚ) : ℚ := l.foldl (· + ·) 0

/-- Working column `resistance` at row `i`:
`high.rolling_max(window_size=n).shift(1)`, i.e. the max of
`high[i-n .. i-1]`, null while the shifted window is incomplete. -/
def breakoutResistance (n : Nat) (highs : List ℚ) (i : Nat) : Option ℚ :=
  if n ≤ i then some (listMax ((highs.drop (i - n)).take n)) else none

/-- Working column `support` at row `i`:
`low.rolling_min(window_size=n).shift(1)`. -/
def breakoutSupport (n : Nat) (lows : List ℚ) (i : Nat) : Option ℚ :=
  if n ≤ i then some (listMin ((lows.drop (i - n)).take n)) else none

/-- Working column `avg_volume` at row `i`:
`volume.rolling_mean(window_size=n)` (not shifted), i.e. the mean of
`volume[i+1-n .. i]`, null while the window is incomplete. -/
def breakoutAvgVolume (n : Nat) (vols : List ℚ) (i : Nat) : Option ℚ :=
  if n ≤ i + 1 then some (listSum ((vols.drop (i + 1 - n)).take n) / n) else none

/-- The BUY condition of the breakout `when` chain:
`bullish_breakout & high_volume`; a null `resistance`/`avg_volume`
(warm-up rows) never satisfies it. -/
def breakoutBuyCond (m : ℚ) (resistance avgVolume : Option ℚ)
    (row : String → ℚ) : Bool :=
  (match resistance with
   | none => false
   | some r => decide (row "close" > r)) &&
  (match avgVolume with
   | none => false
   | some a => decide (row "volume" > a * m))

/-- The SELL condition of the breakout `when` chain: `bearish_breakdown`. -/
def breakoutSellCond (support : Option ℚ) (row : String → ℚ) : Bool :=
  match support with
  | none => false
  | some s => decide (row "close" < s)

/-- The `when/otherwise` chain of `BreakoutStrategy.generate_signals`:
BUY branch first, then SELL, else HOLD. -/
def breakoutSignal (m : ℚ) (resistance support avgVolume : Option ℚ)
    (row : String → ℚ) : Int :=
  if breakoutBuyCond m resistance avgVolume row then 1
  else if breakoutSellCond support row then -1
  else 0

/-- `BreakoutStrategy.generate_signals` (no required-column check in the
source; the OHLCV columns are the input contract). -/
def breakoutGenerateSignals (p : BreakoutParams) (f : Frame) :
    Except String (List SigRow) :=
  let highs := f.rows.map (fun r => r "high")
  let lows := f.rows.map (fun r => r "low")
  let vols := f.rows.map (fun r => r "volume")
  .ok <| (List.range f.rows.length).map fun i =>
    let row := f.rows.getD i (fun _ => 0)
    { timestamp := row "timestamp"
      close := row "close"
      signal := breakoutSignal p.volumeMultiplier
          (breakoutResistance p.lookbackPeriod highs i)
          (breakoutSupport p.lookbackPeriod lows i)
          (breakoutAvgVolume p.lookbackPeriod vols i)
          row }

/-! ## Strategy interface (`strategies/base.py`) and the engine
(`backtesting/engine.py`) -/

/-- The capability set of `Strategy` that the engine consumes:
`generate_signals` (which may raise, modelled as `Except`) and
`calculate_position_size`.  The reference implementations of
`calculate_position_size` ignore their DataFrame argument, so the
embedding passes only `(capital, current_price)`. -/
structure StrategyM where
  generateSignals : Frame → Except String (List SigRow)
  positionSize : ℚ → ℚ → ℚ

/-- `MomentumStrategy` as a `StrategyM`:
`calculate_position_size = capital * position_size_pct / current_price`. -/
def MomentumStrategy (p : MomentumParams) : StrategyM where
  generateSignals := momentumGenerateSignals p
  positionSize := fun capital price => capital * p.positionSizePct / price

/-- `MeanReversionStrategy` as a `StrategyM`. -/
def MeanReversionStrategy (p : MeanReversionParams) : StrategyM where
  generateSignals := meanRevGenerateSignals p
  positionSize := fun capital price => capital * p.positionSizePct / price

/-- `BreakoutStrategy` as a `StrategyM`. -/
def BreakoutStrategy (p : BreakoutParams) : StrategyM where
  generateSignals := breakoutGenerateSignals p
  positionSize := fun capital price => capital * p.positionSizePct / price

/-- `Position` of `strategies/base.py`.  The engine keys the strategy's
`positions` dict by the single ticker of the run, so the engine state
below holds an `Option Pos`. -/
structure Pos where
  ticker : String
  quantity : ℚ
  entryPrice : ℚ
  entryDate : ℚ
  side : String
deriving DecidableEq, Repr, Inhabited

/-- `Position.pnl`. -/
def posPnl (p : Pos) (currentPrice : ℚ) : ℚ :=
  if p.side = "long" then (currentPrice - p.entryPrice) * p.quantity
  else (p.entryPrice - currentPrice) * p.quantity

/-- `Position.pnl_percent`. -/
def posPnlPercent (p : Pos) (currentPrice : ℚ) : ℚ :=
  if p.side = "long" then (currentPrice - p.entryPrice) / p.entryPrice * 100
  else (p.entryPrice - currentPrice) / p.entryPrice * 100

/-- `Trade` of `backtesting/engine.py` (the `trade_id` uuid is omitted:
it is fresh randomness with no bearing on any claim). -/
structure Trade where
  ticker : String
  entryDate : ℚ
  exitDate : ℚ
  entryPrice : ℚ
  exitPrice : ℚ
  quantity : ℚ
  side : String
  pnl : ℚ
  pnlPercent : ℚ
  commission : ℚ
deriving DecidableEq, Repr, Inhabited

/-- One record of `BacktestEngine.equity_history`. -/
structure EquityRec where
  timestamp : ℚ
  equity : ℚ
  cash : ℚ
  signal : Int
deriving DecidableEq, Repr, Inhabited

/-- The signal-processing state of the engine loop: `self.cash`, the open
position for the run's ticker, and `self.trades`. -/
structure Core where
  cash : ℚ
  position : Option Pos
  trades : List Trade
deriving DecidableEq, Repr, Inhabited

/-- Engine loop state: `Core` plus `self.equity_history`. -/
structure EngineState where
  core : Core
  equity : List EquityRec
deriving DecidableEq, Repr, Inhabited

/-- Constructor arguments of `BacktestEngine` (minus the strategy and the
optional database), plus the `ticker` argument of `run`. -/
structure EngineCfg where
  initialCapital : ℚ := 100000
  commission : ℚ := 1/1000
  ticker : String := "UNKNOWN"

/-- Mark-to-market: `cash + quantity * close` with an open position,
else `cash` (the `portfolio_value` update at the top of the loop body). -/
def markToMarket (c : Core) (closePrice : ℚ) : ℚ :=
  match c.position with
  | some p => c.cash + p.quantity * closePrice
  | none => c.cash

/-- The equity record appended for one bar, computed from the `Core`
**before** that bar's signal is processed. -/
def mkEquityRec (c : Core) (r : SigRow) : EquityRec :=
  { timestamp := r.timestamp
    equity := markToMarket c r.close
    cash := c.cash
    signal := r.signal }

/-- The `Trade` the engine records when it closes position `p` at price
`close` on date `exitDate` (shared between the SELL branch and the final
force-close, which are textually identical in the source). -/
def closeTrade (cfg : EngineCfg) (p : Pos) (exitDate close : ℚ) : Trade :=
  let proceeds := p.quantity * close
  let commissionCost := proceeds * cfg.commission
  { ticker := cfg.ticker
    entryDate := p.entryDate
    exitDate := exitDate
    entryPrice := p.entryPrice
    exitPrice := close
    quantity := p.quantity
    side := p.side
    pnl := posPnl p close -
      (commissionCost + p.quantity * p.entryPrice * cfg.commission)
    pnlPercent := posPnlPercent p close
    commission := commissionCost + p.quantity * p.entryPrice * cfg.commission }

/-- The signal-processing part of the loop body (`# Process signals`):
a BUY with no open position sizes a position and opens it when
`cost + commission <= cash` (otherwise a silent no-op); a SELL with an
open position closes it, credits net proceeds and records a `Trade`;
anything else is a no-op. -/
def applySignal (cfg : EngineCfg) (posSize : ℚ → ℚ → ℚ) (c : Core)
    (r : SigRow) : Core :=
  if r.signal = 1 ∧ c.position = none then
    let size := posSize c.cash r.close
    if 0 < size then
      let cost := size * r.close
      let commissionCost := cost * cfg.commission
      let totalCost := cost + commissionCost
      if totalCost ≤ c.cash then
        { c with
          cash := c.cash - totalCost
          position := some
            { ticker := cfg.ticker
              quantity := size
              entryPrice := r.close
              entryDate := r.timestamp
              side := "long" } }
      else c
    else c
  else if r.signal = -1 then
    match c.position with
    | some p =>
        let proceeds := p.quantity * r.close
        let commissionCost := proceeds * cfg.commission
        { cash := c.cash + (proceeds - commissionCost)
          position := none
          trades := c.trades ++ [closeTrade cfg p r.timestamp r.close] }
    | none => c
  else c

/-- One iteration of the engine loop: record the equity of the
pre-action state, then process the bar's signal. -/
def engineStep (cfg : EngineCfg) (posSize : ℚ → ℚ → ℚ) (s : EngineState)
    (r : SigRow) : EngineState :=
  { core := applySignal cfg posSize s.core r
    equity := s.equity ++ [mkEquityRec s.core r] }

/-- The bar-by-bar loop of `BacktestEngine.run`. -/
def engineLoop (cfg : EngineCfg) (posSize : ℚ → ℚ → ℚ) (s : EngineState)
    (sigs : List SigRow) : EngineState :=
  sigs.foldl (engineStep cfg posSize) s

/-- The reset state at the top of `run`. -/
def initState (cfg : EngineCfg) : EngineState :=
  { core := { cash := cfg.initialCapital, position := none, trades := [] }
    equity := [] }

/-- `# Close any remaining positions at final price`: force-close an open
position at the final bar's close and timestamp.  The source indexes
`row(-1)`, only reachable with at least one bar; with no bars no position
can be open and the state is returned unchanged. -/
def forceClose (cfg : EngineCfg) (c : Core) (lastRow : Option SigRow) : Core :=
  match c.position, lastRow with
  | some p, some r =>
      let proceeds := p.quantity * r.close
      let commissionCost := proceeds * cfg.commission
      { cash := c.cash + (proceeds - commissionCost)
        position := none
        trades := c.trades ++ [closeTrade cfg p r.timestamp r.close] }
  | _, _ => c

/-- The fields of `BacktestResult` the claims are about, plus the
engine/strategy state at return (`final_value` is set to
`self.portfolio_value = self.cash` after the force-close; the metrics
fields are covered separately by `PerformanceMetrics.calculate`). -/
structure EngineResult where
  equityCurve : List EquityRec
  trades : List Trade
  finalCash : ℚ
  finalValue : ℚ
  openPosition : Option Pos
deriving DecidableEq, Repr, Inhabited

/-- `BacktestEngine.run`: reset state, generate signals (propagating any
error the strategy raises), loop bar-by-bar, force-close, and report. -/
def runEngine (cfg : EngineCfg) (st : StrategyM) (f : Frame) :
    Except String EngineResult :=
  match st.generateSignals f with
  | .error e => .error e
  | .ok sigs =>
      let s := engineLoop cfg st.positionSize (initState cfg) sigs
      let c := forceClose cfg s.core sigs.getLast?
      .ok { equityCurve := s.equity
            trades := c.trades
            finalCash := c.cash
            finalValue := c.cash
            openPosition := c.position }

/-! ## Performance metrics (`backtesting/metrics.py`) -/

/-- Tail of `np.maximum.accumulate` with running maximum `m`. -/
def runningMaxFrom (m : ℚ) : List ℚ → List ℚ
  | [] => []
  | x :: xs => max m x :: runningMaxFrom (max m x) xs

/-- `np.maximum.accumulate`: entry `t` is the maximum of the first
`t + 1` entries. -/
def runningMax : List ℚ → List ℚ
  | [] => []
  | x :: xs => x :: runningMaxFrom x xs

/-- `drawdown = equity_values - cumulative_max`. -/
def drawdowns (equity : List ℚ) : List ℚ :=
  List.zipWith (· - ·) equity (runningMax equity)

/-- `np.argmin`: the first index attaining the minimum. -/
def troughIdx (l : List ℚ) : Nat :=
  l.findIdx (fun x => decide (x = listMin l))

/-- The fields of the report of `PerformanceMetrics.calculate` that the
claims are about.  `sharpe_ratio` and `sortino_ratio` are omitted from
the embedding: they multiply by the irrational `sqrt(252)` and no claim
mentions them. -/
structure MetricsReport where
  numTrades : Nat
  winningTrades : Nat
  losingTrades : Nat
  winRate : ℚ
  avgWin : ℚ
  avgLoss : ℚ
  largestWin : ℚ
  largestLoss : ℚ
  maxDrawdown : ℚ
  maxDrawdownPct : ℚ
deriving DecidableEq, Repr, Inhabited

/-- `PerformanceMetrics.calculate`, with the trade list projected to its
pnl column (the only trade field the source reads).  With zero trades the
all-zero report is returned.  The source applies `np.min` to the drawdown
array, which raises on an empty equity curve; the embedding returns the
`listMin` default there, and every theorem about the drawdown fields
assumes a non-empty equity curve. -/
def metricsCalculate (equity : List ℚ) (tradePnls : List ℚ) : MetricsReport :=
  if tradePnls.length = 0 then
    { numTrades := 0, winningTrades := 0, losingTrades := 0, winRate := 0
      avgWin := 0, avgLoss := 0, largestWin := 0, largestLoss := 0
      maxDrawdown := 0, maxDrawdownPct := 0 }
  else
    let winning := tradePnls.filter (fun p => decide (p > 0))
    let losing := tradePnls.filter (fun p => decide (p < 0))
    let numTrades := tradePnls.length
    let winRate := if 0 < numTrades then (winning.length : ℚ) / numTrades * 100 else 0
    let avgWin := match winning with
      | [] => 0
      | _ => listSum winning / winning.length
    let avgLoss := match losing with
      | [] => 0
      | _ => listSum losing / losing.length
    let dd := drawdowns equity
    let maxDrawdown := listMin dd
    let denom := (runningMax equity).getD (troughIdx dd) 0
    let rawPct := if denom > 0 then maxDrawdown / denom * 100 else 0
    { numTrades := numTrades
      winningTrades := winning.length
      losingTrades := losing.length
      winRate := winRate
      avgWin := avgWin
      avgLoss := avgLoss
      largestWin := listMax tradePnls
      largestLoss := listMin tradePnls
      maxDrawdown := maxDrawdown
      maxDrawdownPct := |rawPct| }

/-! ## Historical VaR (`risk/var.py`) -/

/-- `np.percentile` with the default linear interpolation: on the
ascending sort `s` of the data, the value at fractional rank
`h = (len - 1) * q / 100` is `s[floor h]` interpolated linearly towards
`s[floor h + 1]`. -/
def interpAt (s : List ℚ) (h : ℚ) : ℚ :=
  let i := (Int.floor h).toNat
  if i + 1 < s.length then
    s.getD i 0 + (h - (i : ℚ)) * (s.getD (i + 1) 0 - s.getD i 0)
  else s.getD (s.length - 1) 0

/-- `np.percentile(xs, q)` (linear interpolation, `0 ≤ q ≤ 100`). -/
def npPercentile (xs : List ℚ) (q : ℚ) : ℚ :=
  let s := List.insertionSort (· ≤ ·) xs
  interpAt s (((s.length : ℚ) - 1) * q / 100)

/-- `VaRCalculator.historical_var`: the `(1 - confidence) * 100`
percentile of the returns, scaled by portfolio value, reported through
`abs`. -/
def historicalVar (returns : List ℚ) (confidenceLevel portfolioValue : ℚ) : ℚ :=
  |npPercentile returns ((1 - confidenceLevel) * 100) * portfolioValue|

/-! ## Portfolio (`portfolio/portfolio.py`) -/

/-- `Holding` with the derived fields filled by `__post_init__`. -/
structure Holding where
  ticker : String
  quantity : ℚ
  avgPrice : ℚ
  currentPrice : ℚ
  marketValue : ℚ
  costBasis : ℚ
  unrealizedPnl : ℚ
  unrealizedPnlPct : ℚ
  weight : ℚ
deriving DecidableEq, Repr, Inhabited

/-- `Holding(ticker, quantity, avg_price, current_price)`:
`__post_init__` computes the derived fields (weight stays 0). -/
def mkHolding (ticker : String) (quantity avgPrice currentPrice : ℚ) : Holding :=
  let costBasis := quantity * avgPrice
  let marketValue := quantity * currentPrice
  let unrealizedPnl := marketValue - costBasis
  { ticker := ticker
    quantity := quantity
    avgPrice := avgPrice
    currentPrice := currentPrice
    marketValue := marketValue
    costBasis := costBasis
    unrealizedPnl := unrealizedPnl
    unrealizedPnlPct := if costBasis > 0 then unrealizedPnl / costBasis * 100 else 0
    weight := 0 }

/-- One record of `transaction_history` (the `datetime.now()` timestamp
is omitted: wall-clock nondeterminism outside the embedding). -/
structure Txn where
  type : String
  ticker : String
  quantity : ℚ
  price : ℚ
  commission : ℚ
  value : ℚ
deriving DecidableEq, Repr, Inhabited

/-- The `Portfolio` dataclass state.  The insertion-ordered `holdings`
dict is an association list with unique ticker keys. -/
structure Portfolio where
  name : String
  initialCapital : ℚ
  cash : ℚ
  holdings : List (String × Holding)
  txns : List Txn
deriving DecidableEq, Repr, Inhabited

/-- Replace the value stored at an existing key (dict item assignment on
a present key). -/
def setKey : List (String × Holding) → String → Holding → List (String × Holding)
  | [], _, _ => []
  | (k, v) :: rest, t, h =>
      if k = t then (k, h) :: rest else (k, v) :: setKey rest t h

/-- Delete a key (`del self.holdings[ticker]`). -/
def removeKey : List (String × Holding) → String → List (String × Holding)
  | [], _ => []
  | (k, v) :: rest, t => if k = t then rest else (k, v) :: removeKey rest t

/-- `Portfolio.buy`: raises (as `Except.error`) when
`quantity * price + commission` exceeds cash — the check precedes every
mutation, so a raising call leaves the caller's portfolio untouched.
Otherwise: cost-basis-weighted update of an existing holding (only
`quantity`, `avg_price`, `cost_basis` are touched, as in the source) or a
fresh `Holding`, cash decrement, and one appended transaction record. -/
def Portfolio.buy (p : Portfolio) (ticker : String)
    (quantity price commission : ℚ) : Except String Portfolio :=
  let cost := quantity * price + commission
  if cost > p.cash then .error "Insufficient funds"
  else
    let holdings :=
      match p.holdings.lookup ticker with
      | some h =>
          let totalCost := h.costBasis + cost
          let totalQuantity := h.quantity + quantity
          setKey p.holdings ticker
            { h with
              quantity := totalQuantity
              avgPrice := totalCost / totalQuantity
              costBasis := totalCost }
      | none => p.holdings ++ [(ticker, mkHolding ticker quantity price price)]
    .ok { p with
      cash := p.cash - cost
      holdings := holdings
      txns := p.txns ++
        [{ type := "BUY", ticker := ticker, quantity := quantity
           price := price, commission := commission, value := cost }] }

/-- `Portfolio.sell`: raises when the ticker has no holding or the
quantity exceeds the held quantity; otherwise credits
`quantity * price - commission` (the source puts no lower bound on these
net proceeds), shrinks or deletes the holding, and appends one
transaction record. -/
def Portfolio.sell (p : Portfolio) (ticker : String)
    (quantity price commission : ℚ) : Except String Portfolio :=
  match p.holdings.lookup ticker with
  | none => .error "No position"
  | some h =>
      if quantity > h.quantity then .error "Insufficient shares"
      else
        let proceeds := quantity * price - commission
        let holdings :=
          if quantity = h.quantity then removeKey p.holdings ticker
          else
            setKey p.holdings ticker
              { h with
                quantity := h.quantity - quantity
                costBasis := (h.quantity - quantity) * h.avgPrice }
        .ok { p with
          cash := p.cash + proceeds
          holdings := holdings
          txns := p.txns ++
            [{ type := "SELL", ticker := ticker, quantity := quantity
               price := price, commission := commission, value := proceeds }] }

/-! ## Specification-side characterisations and invariants -/

/-- The spec's characterisation of the equity history: one record per
bar, in bar order, and the record of bar `t` is computed from the core
state reached by acting on the signals of bars `0 .. t-1` only — "the
equity value is computed before acting on the current bar's signal". -/
def equityHistSpec (cfg : EngineCfg) (posSize : ℚ → ℚ → ℚ) :
    Core → List SigRow → List EquityRec
  | _, [] => []
  | c, r :: rs =>
      mkEquityRec c r :: equityHistSpec cfg posSize (applySignal cfg posSize c r) rs

/-- Invariant of every position the engine opens: long side, positive
quantity. -/
def PosOk (p : Pos) : Prop := p.side = "long" ∧ 0 < p.quantity

/-- Invariant of every trade the engine records with commission rate
`comm`: long side, positive quantity, pnl net of both commissions, and
the commission field equal to entry plus exit notional commission. -/
def TradeOk (comm : ℚ) (t : Trade) : Prop :=
  t.side = "long" ∧ 0 < t.quantity ∧
  t.pnl = (t.exitPrice - t.entryPrice) * t.quantity -
    (t.entryPrice * t.quantity * comm + t.exitPrice * t.quantity * comm) ∧
  t.commission =
    t.entryPrice * t.quantity * comm + t.exitPrice * t.quantity * comm

/-- Invariant of the engine's signal-processing state. -/
def CoreOk (comm : ℚ) (c : Core) : Prop :=
  (∀ p, c.position = some p → PosOk p) ∧ ∀ t ∈ c.trades, TradeOk comm t

/-- `running_max(equity[0..t])` stated directly as the maximum of the
prefix of length `t + 1`. -/
def prefixMax (l : List ℚ) (t : Nat) : ℚ := listMax (l.take (t + 1))

/-! ## Concrete fixtures for witnesses and counterexamples -/

/-- A strategy with a fixed signal plan and fixed position size 10, used
to drive the engine on concrete data. -/
def fixedStrategy (sigs : List SigRow) : StrategyM where
  generateSignals := fun _ => .ok sigs
  positionSize := fun _ _ => 10

/-- Signal plan of the spec's concrete scenario — closes
`[100, 110, 120, 115, 125]`, signals `[BUY, HOLD, SELL, HOLD, BUY]`
(final-bar BUY left open so the force-close path is exercised). -/
def demoSigs : List SigRow :=
  [⟨0, 100, 1⟩, ⟨1, 110, 0⟩, ⟨2, 120, -1⟩, ⟨3, 115, 0⟩, ⟨4, 125, 1⟩]

/-- Five bars of otherwise irrelevant data (the fixed strategy ignores
the frame). -/
def demoFrame : Frame :=
  { cols := []
    rows := [fun _ => 0, fun _ => 0, fun _ => 0, fun _ => 0, fun _ => 0] }

/-- Engine configuration of the spec's concrete scenario: capital
100000, commission 0.1%. -/
def demoCfg : EngineCfg :=
  { initialCapital := 100000, commission := 1/1000, ticker := "TEST" }

/-- The result of the demo run. -/
def demoRes : EngineResult :=
  match runEngine demoCfg (fixedStrategy demoSigs) demoFrame with
  | .ok r => r
  | .error _ => default

/-- The first trade of the demo run. -/
def demoTrade : Trade := demoRes.trades.getD 0 default

/-- The demo run's round trip: entry 100 on bar 0, exit 120 on bar 2,
quantity 10, commission 0.1% on both notionals. -/
def demoTrade1 : Trade :=
  { ticker := "TEST", entryDate := 0, exitDate := 2, entryPrice := 100
    exitPrice := 120, quantity := 10, side := "long", pnl := 989/5
    pnlPercent := 20, commission := 11/5 }

/-- The demo run's force-closed final-bar BUY: entry and exit both 125
on bar 4. -/
def demoTrade2 : Trade :=
  { ticker := "TEST", entryDate := 4, exitDate := 4, entryPrice := 125
    exitPrice := 125, quantity := 10, side := "long", pnl := -(5/2)
    pnlPercent := 0, commission := 5/2 }

/-- The position left open after the demo run's loop (BUY on the final
bar). -/
def demoPos : Pos :=
  { ticker := "TEST", quantity := 10, entryPrice := 125, entryDate := 4
    side := "long" }

/-- A single-bar frame on which the mean-reversion BUY and SELL
conditions hold simultaneously (the bands are not required by the code to
be ordered): close 7, lower band 10, upper band 5, middle band 6. -/
def cexFrame : Frame :=
  { cols := ["close", "BB_upper", "BB_middle", "BB_lower"]
    rows := [fun c =>
      if c = "close" then 7
      else if c = "BB_lower" then 10
      else if c = "BB_upper" then 5
      else if c = "BB_middle" then 6 else 0] }

/-- The row of `cexFrame`. -/
def cexRow : String → ℚ := fun c =>
  if c = "close" then 7
  else if c = "BB_lower" then 10
  else if c = "BB_upper" then 5
  else if c = "BB_middle" then 6 else 0

/-- A momentum row on which BUY and SELL conditions hold simultaneously:
RSI jumps from 0 past both thresholds while the fast MA is above the
slow MA. -/
def momRow : String → ℚ := fun c =>
  if c = "RSI_14" then 80 else if c = "SMA_50" then 10 else 0

/-- The all-zero predecessor row for `momRow`. -/
def momPrevRow : String → ℚ := fun _ => 0

/-- A two-bar frame carrying the momentum strategy's required columns. -/
def momFrame : Frame :=
  { cols := ["RSI_14", "SMA_50", "SMA_200"]
    rows := [momPrevRow, momRow] }

/-- The momentum signals on `momFrame`. -/
def momSigs : List SigRow :=
  (momentumGenerateSignals {} momFrame).toOption.getD []

/-- The mean-reversion signals on `cexFrame`. -/
def cexSigs : List SigRow :=
  (meanRevGenerateSignals {} cexFrame).toOption.getD []

/-- The breakout signals on `demoFrame`. -/
def breakoutSigs : List SigRow :=
  (breakoutGenerateSignals {} demoFrame).toOption.getD []

/-- A frame with no columns at all (every indicator column missing). -/
def emptyFrame : Frame := { cols := [], rows := [] }

/-- A core state with too little cash for the fixed-size BUY below. -/
def lowCashCore : Core := { cash := 5, position := none, trades := [] }

/-- A BUY bar at close 100. -/
def buyRow : SigRow := ⟨0, 100, 1⟩

/-- A SELL bar at close 100. -/
def sellRow : SigRow := ⟨0, 100, -1⟩

/-- A breakout bar sitting above the (unordered) resistance level and
below the support level, with confirming volume. -/
def breakRow : String → ℚ := fun c =>
  if c = "close" then 10 else if c = "volume" then 10 else 0

/-- Portfolio fixture: 100 in cash, nothing held. -/
def pfDemo0 : Portfolio :=
  { name := "P", initialCapital := 100, cash := 100, holdings := [], txns := [] }

/-- The state after buying 10 shares of "A" at 10 with zero commission:
cash 0, one holding. -/
def pfDemo1 : Portfolio :=
  { name := "P", initialCapital := 100, cash := 0
    holdings := [("A", mkHolding "A" 10 10 10)]
    txns := [{ type := "BUY", ticker := "A", quantity := 10, price := 10
               commission := 0, value := 100 }] }

/-- The state after then selling one share at price 1 with commission 5:
the accepted sell drives cash to -4 (only `quantity` and `cost_basis`
of the holding are touched, as in the source). -/
def pfDemo2 : Portfolio :=
  { name := "P", initialCapital := 100, cash := -4
    holdings := [("A",
      { ticker := "A", quantity := 9, avgPrice := 10, currentPrice := 10
        marketValue := 100, costBasis := 90, unrealizedPnl := 0
        unrealizedPnlPct := 0, weight := 0 })]
    txns := [{ type := "BUY", ticker := "A", quantity := 10, price := 10
               commission := 0, value := 100 },
             { type := "SELL", ticker := "A", quantity := 1, price := 1
               commission := 5, value := -4 }] }

/-- The state after instead selling one share at price 2 with zero
commission: cash 2. -/
def pfDemo3 : Portfolio :=
  { name := "P", initialCapital := 100, cash := 2
    holdings := [("A",
      { ticker := "A", quantity := 9, avgPrice := 10, currentPrice := 10
        marketValue := 100, costBasis := 90, unrealizedPnl := 0
        unrealizedPnlPct := 0, weight := 0 })]
    txns := [{ type := "BUY", ticker := "A", quantity := 10, price := 10
               commission := 0, value := 100 },
             { type := "SELL", ticker := "A", quantity := 1, price := 2
               commission := 0, value := 2 }] }

/-! # Theorems

General list lemmas, structural lemmas about the embedded operations,
then the claims. -/

theorem withPrev_length {α : Type} (rows : List α) :
    (withPrev rows).length = rows.length := by
  simp [withPrev]

theorem foldl_min_le_init (xs : List ℚ) (a : ℚ) : xs.foldl min a ≤ a := by
  induction xs generalizing a with
  | nil => simp
  | cons x xs ih => exact le_trans (ih (min a x)) (min_le_left a x)

theorem foldl_min_le_mem {xs : List ℚ} {y : ℚ} (hy : y ∈ xs) (a : ℚ) :
    xs.foldl min a ≤ y := by
  induction xs generalizing a with
  | nil => cases hy
  | cons x xs ih =>
    rcases List.mem_cons.mp hy with rfl | hy'
    · exact le_trans (foldl_min_le_init xs (min a y)) (min_le_right a y)
    · exact ih hy' (min a x)

theorem foldl_min_mem (xs : List ℚ) (a : ℚ) :
    xs.foldl min a = a ∨ xs.foldl min a ∈ xs := by
  induction xs generalizing a with
  | nil => exact Or.inl rfl
  | cons x xs ih =>
    rcases ih (min a x) with h | h
    · rcases min_cases a x with ⟨h', _⟩ | ⟨h', _⟩
      · exact Or.inl (by rw [List.foldl_cons, h, h'])
      · exact Or.inr (by rw [List.foldl_cons, h, h']; exact List.mem_cons_self x xs)
    · exact Or.inr (List.mem_cons_of_mem x (by rw [List.foldl_cons]; exact h))

theorem listMin_le_mem {l : List ℚ} {y : ℚ} (hy : y ∈ l) : listMin l ≤ y := by
  cases l with
  | nil => cases hy
  | cons x xs =>
    rcases List.mem_cons.mp hy with rfl | hy'
    · exact foldl_min_le_init xs y
    · exact foldl_min_le_mem hy' x

theorem listMin_mem {l : List ℚ} (h : l ≠ []) : listMin l ∈ l := by
  cases l with
  | nil => exact absurd rfl h
  | cons x xs =>
    rcases foldl_min_mem xs x with h' | h'
    · rw [show listMin (x :: xs) = x from h']; exact List.mem_cons_self x xs
    · exact List.mem_cons_of_mem x h'

theorem runningMaxFrom_length (m : ℚ) (l : List ℚ) :
    (runningMaxFrom m l).length = l.length := by
  induction l generalizing m with
  | nil => rfl
  | cons x xs ih => simp [runningMaxFrom, ih]

theorem runningMax_length (l : List ℚ) : (runningMax l).length = l.length := by
  cases l with
  | nil => rfl
  | cons x xs => simp [runningMax, runningMaxFrom_length]

theorem runningMaxFrom_getD (xs : List ℚ) (m : ℚ) (t : Nat) (ht : t < xs.length) :
    (runningMaxFrom m xs).getD t 0 = (xs.take (t + 1)).foldl max m := by
  induction xs generalizing m t with
  | nil => simp at ht
  | cons x xs ih =>
    cases t with
    | zero => simp [runningMaxFrom]
    | succ t =>
      simp only [runningMaxFrom, List.getD_cons_succ]
      rw [ih (max m x) t (by simpa using ht)]
      simp [List.take_succ_cons]

theorem runningMax_getD (l : List ℚ) (t : Nat) (ht : t < l.length) :
    (runningMax l).getD t 0 = prefixMax l t := by
  cases l with
  | nil => simp at ht
  | cons x xs =>
    cases t with
    | zero => simp [runningMax, prefixMax, listMax]
    | succ t =>
      simp only [runningMax, List.getD_cons_succ]
      rw [runningMaxFrom_getD xs x t (by simpa using ht)]
      simp [prefixMax, listMax, List.take_succ_cons]

theorem drawdowns_length (l : List ℚ) : (drawdowns l).length = l.length := by
  simp [drawdowns, runningMax_length]

theorem drawdowns_getD (l : List ℚ) (t : Nat) (ht : t < l.length) :
    (drawdowns l).getD t 0 = l.getD t 0 - (runningMax l).getD t 0 := by
  have h1 : t < (drawdowns l).length := by rw [drawdowns_length]; exact ht
  have h2 : t < (runningMax l).length := by rw [runningMax_length]; exact ht
  rw [List.getD_eq_getElem _ _ h1, List.getD_eq_getElem _ _ ht,
    List.getD_eq_getElem _ _ h2]
  simp [drawdowns]

theorem drawdowns_cons (x : ℚ) (xs : List ℚ) :
    drawdowns (x :: xs) = 0 :: List.zipWith (· - ·) xs (runningMaxFrom x xs) := by
  simp [drawdowns, runningMax]

theorem engineLoop_nil (cfg : EngineCfg) (ps : ℚ → ℚ → ℚ) (s : EngineState) :
    engineLoop cfg ps s [] = s := rfl

theorem engineLoop_cons (cfg : EngineCfg) (ps : ℚ → ℚ → ℚ) (s : EngineState)
    (r : SigRow) (rs : List SigRow) :
    engineLoop cfg ps s (r :: rs) = engineLoop cfg ps (engineStep cfg ps s r) rs := rfl

theorem engineLoop_equity (cfg : EngineCfg) (ps : ℚ → ℚ → ℚ) :
    ∀ (sigs : List SigRow) (s : EngineState),
      (engineLoop cfg ps s sigs).equity = s.equity ++ equityHistSpec cfg ps s.core sigs
  | [], s => by simp [engineLoop_nil, equityHistSpec]
  | r :: rs, s => by
    rw [engineLoop_cons, engineLoop_equity cfg ps rs]
    simp [engineStep, equityHistSpec]

theorem equityHistSpec_length (cfg : EngineCfg) (ps : ℚ → ℚ → ℚ) :
    ∀ (sigs : List SigRow) (c : Core),
      (equityHistSpec cfg ps c sigs).length = sigs.length
  | [], _ => rfl
  | r :: rs, c => by simp [equityHistSpec, equityHistSpec_length cfg ps rs]

theorem engineLoop_core (cfg : EngineCfg) (ps : ℚ → ℚ → ℚ) :
    ∀ (sigs : List SigRow) (s : EngineState),
      (engineLoop cfg ps s sigs).core = sigs.foldl (applySignal cfg ps) s.core
  | [], s => rfl
  | r :: rs, s => by
    rw [engineLoop_cons, engineLoop_core cfg ps rs]
    simp [engineStep]

theorem closeTrade_ok (cfg : EngineCfg) (p : Pos) (exitDate close : ℚ)
    (hp : PosOk p) : TradeOk cfg.commission (closeTrade cfg p exitDate close) := by
  obtain ⟨hside, hq⟩ := hp
  refine ⟨hside, hq, ?_, ?_⟩
  · simp only [closeTrade, posPnl, hside, if_pos]
    ring
  · simp only [closeTrade]
    ring

theorem applySignal_coreOk (cfg : EngineCfg) (ps : ℚ → ℚ → ℚ) (c : Core)
    (r : SigRow) (h : CoreOk cfg.commission c) :
    CoreOk cfg.commission (applySignal cfg ps c r) := by
  obtain ⟨hpos, htr⟩ := h
  cases hc : c.position with
  | some p =>
    simp only [applySignal, hc]
    rw [if_neg (by simp)]
    split_ifs with h2
    · refine ⟨by simp, ?_⟩
      intro t ht
      rcases List.mem_append.mp ht with ht' | ht'
      · exact htr t ht'
      · rw [List.mem_singleton.mp ht']
        exact closeTrade_ok cfg p r.timestamp r.close (hpos p hc)
    · exact ⟨hpos, htr⟩
  | none =>
    by_cases h1 : r.signal = 1
    · simp only [applySignal, hc]
      rw [if_pos (by exact ⟨h1, trivial⟩)]
      split_ifs with h2 h3
      · refine ⟨?_, htr⟩
        intro q hq
        simp only [Option.some.injEq] at hq
        rw [← hq]
        exact ⟨rfl, h2⟩
      · exact ⟨hpos, htr⟩
      · exact ⟨hpos, htr⟩
    · simp only [applySignal, hc]
      rw [if_neg (by intro hh; exact h1 hh.1)]
      split_ifs with h2
      · exact ⟨hpos, htr⟩
      · exact ⟨hpos, htr⟩

theorem foldl_applySignal_coreOk (cfg : EngineCfg) (ps : ℚ → ℚ → ℚ) :
    ∀ (sigs : List SigRow) (c : Core), CoreOk cfg.commission c →
      CoreOk cfg.commission (sigs.foldl (applySignal cfg ps) c)
  | [], _, h => h
  | r :: rs, c, h => by
    rw [List.foldl_cons]
    exact foldl_applySignal_coreOk cfg ps rs _ (applySignal_coreOk cfg ps c r h)

theorem forceClose_coreOk (cfg : EngineCfg) (c : Core) (lastRow : Option SigRow)
    (h : CoreOk cfg.commission c) : CoreOk cfg.commission (forceClose cfg c lastRow) := by
  obtain ⟨hpos, htr⟩ := h
  cases hc : c.position with
  | none => cases lastRow <;> simp only [forceClose, hc] <;> exact ⟨hpos, htr⟩
  | some p =>
    cases lastRow with
    | none => simp only [forceClose, hc]; exact ⟨hpos, htr⟩
    | some r =>
      simp only [forceClose, hc]
      refine ⟨by simp, ?_⟩
      intro t ht
      rcases List.mem_append.mp ht with ht' | ht'
      · exact htr t ht'
      · rw [List.mem_singleton.mp ht']
        exact closeTrade_ok cfg p r.timestamp r.close (hpos p hc)

theorem initState_coreOk (cfg : EngineCfg) : CoreOk cfg.commission (initState cfg).core :=
  ⟨fun p hp => by simp [initState] at hp, fun t ht => by simp [initState] at ht⟩

/-- Inversion of a successful `runEngine` call: the strategy produced
some signals, and every result field is the corresponding loop /
force-close projection. -/
theorem runEngine_ok_inv (cfg : EngineCfg) (st : StrategyM) (f : Frame)
    (res : EngineResult) (h : runEngine cfg st f = .ok res) :
    ∃ sigs, st.generateSignals f = .ok sigs ∧
      res.equityCurve = (engineLoop cfg st.positionSize (initState cfg) sigs).equity ∧
      res.trades = (forceClose cfg
        (engineLoop cfg st.positionSize (initState cfg) sigs).core sigs.getLast?).trades ∧
      res.finalCash = (forceClose cfg
        (engineLoop cfg st.positionSize (initState cfg) sigs).core sigs.getLast?).cash ∧
      res.finalValue = (forceClose cfg
        (engineLoop cfg st.positionSize (initState cfg) sigs).core sigs.getLast?).cash ∧
      res.openPosition = (forceClose cfg
        (engineLoop cfg st.positionSize (initState cfg) sigs).core sigs.getLast?).position := by
  cases hg : st.generateSignals f with
  | error e => simp [runEngine, hg] at h
  | ok sigs =>
    refine ⟨sigs, rfl, ?_⟩
    simp only [runEngine, hg] at h
    injection h with h
    subst h
    exact ⟨rfl, rfl, rfl, rfl, rfl⟩

theorem momentumGenerateSignals_length (p : MomentumParams) (f : Frame)
    (sigs : List SigRow) (h : momentumGenerateSignals p f = .ok sigs) :
    sigs.length = f.rows.length := by
  simp only [momentumGenerateSignals] at h
  split_ifs at h
  injection h with h
  rw [← h]
  simp [withPrev_length]

theorem meanRevGenerateSignals_length (p : MeanReversionParams) (f : Frame)
    (sigs : List SigRow) (h : meanRevGenerateSignals p f = .ok sigs) :
    sigs.length = f.rows.length := by
  simp only [meanRevGenerateSignals] at h
  split_ifs at h
  injection h with h
  rw [← h]
  simp [withPrev_length]

theorem breakoutGenerateSignals_length (p : BreakoutParams) (f : Frame)
    (sigs : List SigRow) (h : breakoutGenerateSignals p f = .ok sigs) :
    sigs.length = f.rows.length := by
  simp only [breakoutGenerateSignals] at h
  injection h with h
  rw [← h]
  simp

/-- A position can only be open after the loop if there was at least one
bar: the reset state has no open position and an empty loop is the
identity. -/
theorem engineLoop_position_ne_nil (cfg : EngineCfg) (ps : ℚ → ℚ → ℚ)
    (sigs : List SigRow) (p : Pos)
    (h : (engineLoop cfg ps (initState cfg) sigs).core.position = some p) :
    sigs ≠ [] := by
  intro hnil
  rw [hnil, engineLoop_nil] at h
  simp [initState] at h

theorem sorted_getD_mono {s : List ℚ} (hs : List.Sorted (· ≤ ·) s) {a b : Nat}
    (hab : a ≤ b) (hb : b < s.length) : s.getD a 0 ≤ s.getD b 0 := by
  have ha : a < s.length := lt_of_le_of_lt hab hb
  rw [List.getD_eq_getElem _ _ ha, List.getD_eq_getElem _ _ hb]
  have := hs.rel_get_of_le (a := ⟨a, ha⟩) (b := ⟨b, hb⟩) (Fin.mk_le_mk.mpr hab)
  simpa using this

theorem interpAt_mono {s : List ℚ} (hs : List.Sorted (· ≤ ·) s) (hne : s ≠ [])
    {h1 h2 : ℚ} (h0 : 0 ≤ h1) (h12 : h1 ≤ h2) (hub : h2 ≤ (s.length : ℚ) - 1) :
    interpAt s h1 ≤ interpAt s h2 := by
  have hpos : 0 < s.length := List.length_pos.mpr hne
  have h0' : 0 ≤ h2 := le_trans h0 h12
  have hfl1 : (0 : ℤ) ≤ Int.floor h1 := Int.floor_nonneg.mpr h0
  have hfl2 : (0 : ℤ) ≤ Int.floor h2 := Int.floor_nonneg.mpr h0'
  have hc1 : (((Int.floor h1).toNat : ℚ)) = ((Int.floor h1 : ℤ) : ℚ) := by
    exact_mod_cast Int.toNat_of_nonneg hfl1
  have hc2 : (((Int.floor h2).toNat : ℚ)) = ((Int.floor h2 : ℤ) : ℚ) := by
    exact_mod_cast Int.toNat_of_nonneg hfl2
  have hle1 : (((Int.floor h1).toNat : ℚ)) ≤ h1 := by rw [hc1]; exact Int.floor_le h1
  have hlt1 : h1 < (((Int.floor h1).toNat : ℚ)) + 1 := by
    rw [hc1]; exact Int.lt_floor_add_one h1
  have hle2 : (((Int.floor h2).toNat : ℚ)) ≤ h2 := by rw [hc2]; exact Int.floor_le h2
  have hlt2 : h2 < (((Int.floor h2).toNat : ℚ)) + 1 := by
    rw [hc2]; exact Int.lt_floor_add_one h2
  have hmono : (Int.floor h1).toNat ≤ (Int.floor h2).toNat := by
    have := Int.floor_mono h12
    omega
  have hi2n : (Int.floor h2).toNat + 1 ≤ s.length := by
    have hx : (((Int.floor h2).toNat : ℚ)) + 1 ≤ (s.length : ℚ) := by
      have := le_trans hle2 hub
      linarith
    exact_mod_cast hx
  by_cases heq : (Int.floor h1).toNat = (Int.floor h2).toNat
  · simp only [interpAt]
    rw [heq]
    by_cases hc : (Int.floor h2).toNat + 1 < s.length
    · rw [if_pos hc, if_pos hc]
      have hd : s.getD ((Int.floor h2).toNat) 0 ≤ s.getD ((Int.floor h2).toNat + 1) 0 :=
        sorted_getD_mono hs (Nat.le_succ _) hc
      have key : 0 ≤ (h2 - h1) *
          (s.getD ((Int.floor h2).toNat + 1) 0 - s.getD ((Int.floor h2).toNat) 0) :=
        mul_nonneg (by linarith) (by linarith)
      nlinarith [key]
    · rw [if_neg hc, if_neg hc]
  · have hlt : (Int.floor h1).toNat < (Int.floor h2).toNat := lt_of_le_of_ne hmono heq
    have hi1n : (Int.floor h1).toNat + 1 < s.length := by omega
    have hup : interpAt s h1 ≤ s.getD ((Int.floor h1).toNat + 1) 0 := by
      simp only [interpAt]
      rw [if_pos hi1n]
      have hd : s.getD ((Int.floor h1).toNat) 0 ≤ s.getD ((Int.floor h1).toNat + 1) 0 :=
        sorted_getD_mono hs (Nat.le_succ _) hi1n
      have key : 0 ≤ (1 - (h1 - (((Int.floor h1).toNat : ℚ)))) *
          (s.getD ((Int.floor h1).toNat + 1) 0 - s.getD ((Int.floor h1).toNat) 0) :=
        mul_nonneg (by linarith) (by linarith)
      nlinarith [key]
    have hdown : s.getD ((Int.floor h1).toNat + 1) 0 ≤ interpAt s h2 := by
      simp only [interpAt]
      by_cases hc2 : (Int.floor h2).toNat + 1 < s.length
      · rw [if_pos hc2]
        have hd2 : s.getD ((Int.floor h2).toNat) 0 ≤ s.getD ((Int.floor h2).toNat + 1) 0 :=
          sorted_getD_mono hs (Nat.le_succ _) hc2
        have hmem : s.getD ((Int.floor h1).toNat + 1) 0 ≤ s.getD ((Int.floor h2).toNat) 0 :=
          sorted_getD_mono hs (by omega) (by omega)
        have key : 0 ≤ (h2 - (((Int.floor h2).toNat : ℚ))) *
            (s.getD ((Int.floor h2).toNat + 1) 0 - s.getD ((Int.floor h2).toNat) 0) :=
          mul_nonneg (by linarith) (by linarith)
        nlinarith [key]
      · rw [if_neg hc2]
        exact sorted_getD_mono hs (by omega) (by omega)
    exact le_trans hup hdown

theorem npPercentile_mono (xs : List ℚ) (hne : xs ≠ []) {q1 q2 : ℚ}
    (h0 : 0 ≤ q1) (h12 : q1 ≤ q2) (h100 : q2 ≤ 100) :
    npPercentile xs q1 ≤ npPercentile xs q2 := by
  have hs : (List.insertionSort (· ≤ ·) xs).Sorted (· ≤ ·) :=
    List.sorted_insertionSort (· ≤ ·) xs
  have hlen : (List.insertionSort (· ≤ ·) xs).length = xs.length :=
    (List.perm_insertionSort (· ≤ ·) xs).length_eq
  have hne' : List.insertionSort (· ≤ ·) xs ≠ [] := by
    intro h
    rw [h] at hlen
    exact hne (List.length_eq_zero.mp hlen.symm)
  have hpos : 0 < (List.insertionSort (· ≤ ·) xs).length := List.length_pos.mpr hne'
  have hco : (0 : ℚ) ≤ ((List.insertionSort (· ≤ ·) xs).length : ℚ) - 1 := by
    have hone : (1 : ℚ) ≤ ((List.insertionSort (· ≤ ·) xs).length : ℚ) := by
      exact_mod_cast hpos
    linarith
  simp only [npPercentile]
  apply interpAt_mono hs hne'
  · exact div_nonneg (mul_nonneg hco h0) (by norm_num)
  · have := mul_le_mul_of_nonneg_left h12 hco
    linarith
  · rw [div_le_iff₀ (by norm_num : (0:ℚ) < 100)]
    have := mul_le_mul_of_nonneg_left h100 hco
    linarith

/-! ## Evaluation of the demo fixtures

Rational arithmetic does not reduce definitionally (it normalises
through `Nat.gcd`), so the concrete demo run is evaluated once by
`norm_num` into explicit literals that the witnesses below reuse. -/

theorem demoSigs_getLast : demoSigs.getLast? = some ⟨4, 125, 1⟩ := rfl

theorem demoLoop_eq :
    engineLoop demoCfg (fixedStrategy demoSigs).positionSize (initState demoCfg)
      demoSigs =
    { core := { cash := 1978931/20, position := some demoPos, trades := [demoTrade1] }
      equity := [⟨0, 100000, 100000, 1⟩, ⟨1, 100099, 98999, 0⟩,
                 ⟨2, 100199, 98999, -1⟩, ⟨3, 500989/5, 500989/5, 0⟩,
                 ⟨4, 500989/5, 500989/5, 1⟩] } := by
  norm_num [engineLoop, engineStep, applySignal, markToMarket, mkEquityRec,
    initState, demoCfg, demoSigs, fixedStrategy, closeTrade, posPnl,
    posPnlPercent, demoPos, demoTrade1]

theorem demoRun_eq :
    runEngine demoCfg (fixedStrategy demoSigs) demoFrame = .ok
      { equityCurve := (engineLoop demoCfg (fixedStrategy demoSigs).positionSize
          (initState demoCfg) demoSigs).equity
        trades := (forceClose demoCfg (engineLoop demoCfg
          (fixedStrategy demoSigs).positionSize (initState demoCfg) demoSigs).core
          demoSigs.getLast?).trades
        finalCash := (forceClose demoCfg (engineLoop demoCfg
          (fixedStrategy demoSigs).positionSize (initState demoCfg) demoSigs).core
          demoSigs.getLast?).cash
        finalValue := (forceClose demoCfg (engineLoop demoCfg
          (fixedStrategy demoSigs).positionSize (initState demoCfg) demoSigs).core
          demoSigs.getLast?).cash
        openPosition := (forceClose demoCfg (engineLoop demoCfg
          (fixedStrategy demoSigs).positionSize (initState demoCfg) demoSigs).core
          demoSigs.getLast?).position } := rfl

theorem demoRes_eq :
    demoRes =
    { equityCurve := [⟨0, 100000, 100000, 1⟩, ⟨1, 100099, 98999, 0⟩,
                      ⟨2, 100199, 98999, -1⟩, ⟨3, 500989/5, 500989/5, 0⟩,
                      ⟨4, 500989/5, 500989/5, 1⟩]
      trades := [demoTrade1, demoTrade2]
      finalCash := 1001953/10
      finalValue := 1001953/10
      openPosition := none } := by
  have h : demoRes = (match runEngine demoCfg (fixedStrategy demoSigs) demoFrame with
    | .ok r => r
    | .error _ => default) := rfl
  rw [h, demoRun_eq]
  rw [demoLoop_eq, demoSigs_getLast]
  norm_num [forceClose, closeTrade, posPnl, posPnlPercent, demoPos, demoTrade1,
    demoTrade2, demoCfg]

theorem demoTrades_eq : demoRes.trades = [demoTrade1, demoTrade2] := by
  rw [demoRes_eq]

theorem demoTrade_eq : demoTrade = demoTrade1 := by
  simp only [demoTrade, demoTrades_eq, List.getD_cons_zero]

/-! ## The claims -/

/-- C1, counterexample: on the single-bar frame `cexFrame` the
mean-reversion BUY and SELL conditions are simultaneously true, yet
`generate_signals` emits BUY (1), not SELL (-1) — the claimed SELL
priority is false: the `when/otherwise` chains check the BUY branch
first. -/
theorem c1_sell_priority_counterexample :
    meanRevBuyCond cexRow = true ∧ meanRevSellCond none cexRow = true ∧
    meanRevGenerateSignals {} cexFrame = .ok [⟨0, 7, 1⟩] ∧
    (((meanRevGenerateSignals {} cexFrame).toOption.getD []).getD 0 default).signal ≠ -1 :=
  ⟨by decide, by decide, rfl, by decide⟩

/-- C1 (amended): on every bar where a reference strategy's BUY and SELL
conditions are simultaneously true, `generate_signals` emits BUY — BUY
takes priority over SELL in the tie-break, for Momentum, MeanReversion
and Breakout alike. -/
theorem c1_buy_priority :
    (∀ (p : MomentumParams) (prev : Option (String → ℚ)) (row : String → ℚ),
        momentumBuyCond p prev row = true → momentumSellCond p prev row = true →
        momentumSignal p prev row = 1) ∧
    (∀ (prev : Option (String → ℚ)) (row : String → ℚ),
        meanRevBuyCond row = true → meanRevSellCond prev row = true →
        meanRevSignal prev row = 1) ∧
    (∀ (m : ℚ) (resistance support avgVolume : Option ℚ) (row : String → ℚ),
        breakoutBuyCond m resistance avgVolume row = true →
        breakoutSellCond support row = true →
        breakoutSignal m resistance support avgVolume row = 1) := by
  refine ⟨?_, ?_, ?_⟩
  · intro p prev row hb _
    simp [momentumSignal, hb]
  · intro prev row hb _
    simp [meanRevSignal, hb]
  · intro m rs sp av row hb _
    simp [breakoutSignal, hb]

/-- Witness for C1 (amended): a concrete both-conditions bar per
strategy, each emitting BUY. -/
theorem c1_buy_priority_witness :
    momentumSignal {} (some momPrevRow) momRow = 1 ∧
    meanRevSignal none cexRow = 1 ∧
    breakoutSignal 1 (some 5) (some 20) (some 1) breakRow = 1 :=
  ⟨c1_buy_priority.1 {} (some momPrevRow) momRow (by decide) (by decide),
   c1_buy_priority.2.1 none cexRow (by decide) (by decide),
   c1_buy_priority.2.2 1 (some 5) (some 20) (some 1) breakRow
     (by norm_num [breakoutBuyCond, breakRow]) (by norm_num [breakoutSellCond, breakRow])⟩

/-- C2: on any table where `generate_signals` succeeds, the engine's
equity history is `equityHistSpec`: exactly one record per signal bar,
in order, each computed from the state before that bar's signal is acted
on; and each reference strategy returns exactly one signal row per input
row, so the history has exactly N records for an N-row table. -/
theorem c2_equity_history :
    (∀ (cfg : EngineCfg) (st : StrategyM) (f : Frame) (sigs : List SigRow)
        (res : EngineResult),
        st.generateSignals f = .ok sigs → runEngine cfg st f = .ok res →
        res.equityCurve.length = sigs.length ∧
        res.equityCurve = equityHistSpec cfg st.positionSize (initState cfg).core sigs) ∧
    (∀ p f sigs, momentumGenerateSignals p f = .ok sigs → sigs.length = f.rows.length) ∧
    (∀ p f sigs, meanRevGenerateSignals p f = .ok sigs → sigs.length = f.rows.length) ∧
    (∀ p f sigs, breakoutGenerateSignals p f = .ok sigs → sigs.length = f.rows.length) := by
  refine ⟨?_, momentumGenerateSignals_length, meanRevGenerateSignals_length,
    breakoutGenerateSignals_length⟩
  intro cfg st f sigs res hok hrun
  obtain ⟨sigs', hok', heq, _⟩ := runEngine_ok_inv cfg st f res hrun
  rw [hok] at hok'
  injection hok' with hss
  subst hss
  constructor
  · rw [heq, engineLoop_equity]
    simp [initState, equityHistSpec_length]
  · rw [heq, engineLoop_equity]
    simp [initState]

/-- Witness for C2: the demo run records exactly 5 equity entries equal
to `equityHistSpec`, and concrete runs of the three reference strategies
preserve the row count. -/
theorem c2_equity_history_witness :
    demoRes.equityCurve.length = demoSigs.length ∧
    demoRes.equityCurve = equityHistSpec demoCfg
      (fixedStrategy demoSigs).positionSize (initState demoCfg).core demoSigs ∧
    momSigs.length = momFrame.rows.length ∧
    cexSigs.length = cexFrame.rows.length ∧
    breakoutSigs.length = demoFrame.rows.length :=
  ⟨(c2_equity_history.1 demoCfg (fixedStrategy demoSigs) demoFrame demoSigs demoRes
      rfl rfl).1,
   (c2_equity_history.1 demoCfg (fixedStrategy demoSigs) demoFrame demoSigs demoRes
      rfl rfl).2,
   c2_equity_history.2.1 {} momFrame momSigs rfl,
   c2_equity_history.2.2.1 {} cexFrame cexSigs rfl,
   c2_equity_history.2.2.2 {} demoFrame breakoutSigs rfl⟩

/-- C3: every trade the engine records carries
`pnl = (exit - entry) * qty - (entry * qty * c + exit * qty * c)` and
`commission = entry * qty * c + exit * qty * c` — the flat proportional
commission is charged on both the entry and the exit notional. -/
theorem c3_trade_pnl_commission (cfg : EngineCfg) (st : StrategyM) (f : Frame)
    (res : EngineResult) (h : runEngine cfg st f = .ok res) :
    ∀ t ∈ res.trades,
      t.pnl = (t.exitPrice - t.entryPrice) * t.quantity -
        (t.entryPrice * t.quantity * cfg.commission +
          t.exitPrice * t.quantity * cfg.commission) ∧
      t.commission = t.entryPrice * t.quantity * cfg.commission +
        t.exitPrice * t.quantity * cfg.commission := by
  obtain ⟨sigs, hok, _, htr, _⟩ := runEngine_ok_inv cfg st f res h
  intro t ht
  rw [htr] at ht
  have hcore : CoreOk cfg.commission
      (engineLoop cfg st.positionSize (initState cfg) sigs).core := by
    rw [engineLoop_core]
    exact foldl_applySignal_coreOk cfg st.positionSize sigs _ (initState_coreOk cfg)
  have hok' := (forceClose_coreOk cfg _ sigs.getLast? hcore).2 t ht
  exact ⟨hok'.2.2.1, hok'.2.2.2⟩

/-- Witness for C3: the demo run's first trade (entry 100, exit 120,
quantity 10, commission rate 0.1%) satisfies both formulas. -/
theorem c3_trade_pnl_commission_witness :
    demoTrade.pnl = (demoTrade.exitPrice - demoTrade.entryPrice) * demoTrade.quantity -
      (demoTrade.entryPrice * demoTrade.quantity * demoCfg.commission +
        demoTrade.exitPrice * demoTrade.quantity * demoCfg.commission) ∧
    demoTrade.commission = demoTrade.entryPrice * demoTrade.quantity * demoCfg.commission +
      demoTrade.exitPrice * demoTrade.quantity * demoCfg.commission :=
  c3_trade_pnl_commission demoCfg (fixedStrategy demoSigs) demoFrame demoRes rfl
    demoTrade (by rw [demoTrade_eq, demoTrades_eq]; exact List.mem_cons_self _ _)

/-- C4: a successful run never returns with an open position, its final
value is its cash alone, and whenever the loop ends with an open
position the returned ledger is the loop ledger plus one force-close
trade whose exit date and price are the final bar's timestamp and
close. -/
theorem c4_force_close (cfg : EngineCfg) (st : StrategyM) (f : Frame)
    (res : EngineResult) (h : runEngine cfg st f = .ok res) :
    res.openPosition = none ∧ res.finalValue = res.finalCash ∧
    (∀ (sigs : List SigRow) (r : SigRow) (p : Pos),
      st.generateSignals f = .ok sigs → sigs.getLast? = some r →
      (engineLoop cfg st.positionSize (initState cfg) sigs).core.position = some p →
      res.trades = (engineLoop cfg st.positionSize (initState cfg) sigs).core.trades
        ++ [closeTrade cfg p r.timestamp r.close] ∧
      (closeTrade cfg p r.timestamp r.close).exitDate = r.timestamp ∧
      (closeTrade cfg p r.timestamp r.close).exitPrice = r.close) := by
  obtain ⟨sigs, hok, _, htr, hcash, hval, hpos⟩ := runEngine_ok_inv cfg st f res h
  refine ⟨?_, by rw [hval, hcash], ?_⟩
  · rw [hpos]
    cases hc : (engineLoop cfg st.positionSize (initState cfg) sigs).core.position with
    | none => cases hl : sigs.getLast? <;> simp [forceClose, hc]
    | some p =>
      have hne : sigs ≠ [] := engineLoop_position_ne_nil cfg st.positionSize sigs p hc
      cases hl : sigs.getLast? with
      | none => exact absurd (List.getLast?_eq_none_iff.mp hl) hne
      | some r => simp [forceClose, hc, hl]
  · intro sigs' r p hok' hlast hopen
    rw [hok] at hok'
    injection hok' with hss
    subst hss
    refine ⟨?_, rfl, rfl⟩
    rw [htr]
    simp [forceClose, hopen, hlast]

/-- Witness for C4: the demo run's final-bar BUY is force-closed at the
final close 125 with exit date 4, and the run ends with no open
position and final value equal to cash. -/
theorem c4_force_close_witness :
    demoRes.openPosition = none ∧ demoRes.finalValue = demoRes.finalCash ∧
    demoRes.trades = (engineLoop demoCfg (fixedStrategy demoSigs).positionSize
        (initState demoCfg) demoSigs).core.trades
      ++ [closeTrade demoCfg demoPos 4 125] ∧
    (closeTrade demoCfg demoPos 4 125).exitDate = 4 ∧
    (closeTrade demoCfg demoPos 4 125).exitPrice = 125 :=
  ⟨(c4_force_close demoCfg (fixedStrategy demoSigs) demoFrame demoRes rfl).1,
   (c4_force_close demoCfg (fixedStrategy demoSigs) demoFrame demoRes rfl).2.1,
   ((c4_force_close demoCfg (fixedStrategy demoSigs) demoFrame demoRes rfl).2.2
      demoSigs ⟨4, 125, 1⟩ demoPos rfl rfl (by rw [demoLoop_eq])).1,
   ((c4_force_close demoCfg (fixedStrategy demoSigs) demoFrame demoRes rfl).2.2
      demoSigs ⟨4, 125, 1⟩ demoPos rfl rfl (by rw [demoLoop_eq])).2.1,
   ((c4_force_close demoCfg (fixedStrategy demoSigs) demoFrame demoRes rfl).2.2
      demoSigs ⟨4, 125, 1⟩ demoPos rfl rfl (by rw [demoLoop_eq])).2.2⟩

/-- C5: a BUY whose total cost (cost plus entry commission) exceeds
available cash is a silent no-op on the engine state (cash, position,
ledger all unchanged); an error from the strategy's `generate_signals`
propagates out of `run` unchanged; and the momentum strategy raises its
missing-indicator `ValueError` when `RSI_{period}` is absent. -/
theorem c5_error_handling :
    (∀ (cfg : EngineCfg) (ps : ℚ → ℚ → ℚ) (c : Core) (r : SigRow),
        r.signal = 1 → c.position = none →
        c.cash < ps c.cash r.close * r.close +
          ps c.cash r.close * r.close * cfg.commission →
        applySignal cfg ps c r = c) ∧
    (∀ (cfg : EngineCfg) (st : StrategyM) (f : Frame) (e : String),
        st.generateSignals f = .error e → runEngine cfg st f = .error e) ∧
    (∀ (p : MomentumParams) (f : Frame), rsiColName p ∉ f.cols →
        momentumGenerateSignals p f = .error (missingMsg (rsiColName p))) := by
  refine ⟨?_, ?_, ?_⟩
  · intro cfg ps c r h1 hp hover
    simp only [applySignal]
    rw [if_pos ⟨h1, hp⟩]
    split_ifs with hsz hle
    · exact absurd hle (not_le.mpr hover)
    · rfl
    · rfl
  · intro cfg st f e hg
    simp [runEngine, hg]
  · intro p f hmiss
    simp [momentumGenerateSignals, hmiss]

/-- Witness for C5: with cash 5 a size-10 BUY at close 100 (total cost
1001) is a no-op; running the momentum strategy on a frame with no
columns propagates the missing `RSI_14` error out of `run`. -/
theorem c5_error_handling_witness :
    applySignal demoCfg (fixedStrategy demoSigs).positionSize lowCashCore buyRow
      = lowCashCore ∧
    runEngine demoCfg (MomentumStrategy {}) emptyFrame
      = .error (missingMsg (rsiColName {})) ∧
    momentumGenerateSignals {} emptyFrame = .error (missingMsg (rsiColName {})) :=
  ⟨c5_error_handling.1 demoCfg (fixedStrategy demoSigs).positionSize lowCashCore
      buyRow rfl rfl (by norm_num [fixedStrategy, lowCashCore, buyRow, demoCfg]),
   c5_error_handling.2.1 demoCfg (MomentumStrategy {}) emptyFrame _
      (c5_error_handling.2.2 {} emptyFrame (by decide)),
   c5_error_handling.2.2 {} emptyFrame (by decide)⟩

/-- C6, counterexample: on equity `[100, 50]` with one trade the
reported `max_drawdown` is `-50`, the most negative drawdown itself —
the source applies no `abs` to it, so the claim that *both* values are
reported as non-negative magnitudes is false (only the percentage is). -/
theorem c6_counterexample :
    (metricsCalculate [100, 50] [-1]).maxDrawdown = -50 ∧
    ¬ (0 ≤ (metricsCalculate [100, 50] [-1]).maxDrawdown) ∧
    (metricsCalculate [100, 50] [-1]).maxDrawdownPct = 50 := by
  norm_num [metricsCalculate, drawdowns, runningMax, runningMaxFrom, listMin,
    troughIdx, listMax, listSum, List.findIdx_cons]

/-- C6 (amended): `max_drawdown` is the most negative value of
`equity[t] - running_max(equity[0..t])`, reported as-is (a non-positive
number, not a magnitude); `max_drawdown_pct` normalizes it by the
running max at the trough index (0 when that running max is not
positive) and only this percentage is reported as a non-negative
magnitude through `abs`. -/
theorem c6_max_drawdown (equity tradePnls : List ℚ) (heq : equity ≠ [])
    (htr : tradePnls ≠ []) :
    (metricsCalculate equity tradePnls).maxDrawdown = listMin (drawdowns equity) ∧
    (metricsCalculate equity tradePnls).maxDrawdown ≤ 0 ∧
    (∀ t, t < equity.length →
      (metricsCalculate equity tradePnls).maxDrawdown ≤
        equity.getD t 0 - prefixMax equity t) ∧
    (∃ t, t < equity.length ∧
      (metricsCalculate equity tradePnls).maxDrawdown =
        equity.getD t 0 - prefixMax equity t) ∧
    (metricsCalculate equity tradePnls).maxDrawdownPct =
      |if (runningMax equity).getD (troughIdx (drawdowns equity)) 0 > 0 then
          listMin (drawdowns equity) /
            (runningMax equity).getD (troughIdx (drawdowns equity)) 0 * 100
        else 0| ∧
    0 ≤ (metricsCalculate equity tradePnls).maxDrawdownPct := by
  have hlen : ¬ tradePnls.length = 0 := fun h => htr (List.length_eq_zero.mp h)
  have hdd : (metricsCalculate equity tradePnls).maxDrawdown =
      listMin (drawdowns equity) := by
    simp [metricsCalculate, hlen]
  have hpct : (metricsCalculate equity tradePnls).maxDrawdownPct =
      |if (runningMax equity).getD (troughIdx (drawdowns equity)) 0 > 0 then
          listMin (drawdowns equity) /
            (runningMax equity).getD (troughIdx (drawdowns equity)) 0 * 100
        else 0| := by
    simp [metricsCalculate, hlen]
  refine ⟨hdd, ?_, ?_, ?_, hpct, ?_⟩
  · obtain ⟨x, xs, rfl⟩ : ∃ x xs, equity = x :: xs := by
      cases equity with
      | nil => exact absurd rfl heq
      | cons a l => exact ⟨a, l, rfl⟩
    rw [hdd, drawdowns_cons]
    exact foldl_min_le_init (List.zipWith (· - ·) xs (runningMaxFrom x xs)) 0
  · intro t ht
    rw [hdd]
    have hmem : (drawdowns equity).getD t 0 ∈ drawdowns equity := by
      have hlt : t < (drawdowns equity).length := by
        rw [drawdowns_length]; exact ht
      rw [List.getD_eq_getElem _ _ hlt]
      exact List.getElem_mem hlt
    calc listMin (drawdowns equity) ≤ (drawdowns equity).getD t 0 :=
          listMin_le_mem hmem
      _ = equity.getD t 0 - prefixMax equity t := by
          rw [drawdowns_getD equity t ht, runningMax_getD equity t ht]
  · have hne : drawdowns equity ≠ [] := by
      intro h
      apply heq
      have hl := drawdowns_length equity
      rw [h] at hl
      exact List.length_eq_zero.mp hl.symm
    obtain ⟨i, hi, hgi⟩ := List.getElem_of_mem (listMin_mem hne)
    have hi' : i < equity.length := by rw [← drawdowns_length]; exact hi
    refine ⟨i, hi', ?_⟩
    rw [hdd, ← runningMax_getD equity i hi', ← drawdowns_getD equity i hi']
    rw [List.getD_eq_getElem _ _ hi, hgi]
  · rw [hpct]
    exact abs_nonneg _

/-- Witness for C6 (amended), instantiated on equity `[100, 50]` with
one losing trade. -/
theorem c6_max_drawdown_witness :
    (metricsCalculate [100, 50] [-1]).maxDrawdown = listMin (drawdowns [100, 50]) ∧
    (metricsCalculate [100, 50] [-1]).maxDrawdown ≤ 0 ∧
    (metricsCalculate [100, 50] [-1]).maxDrawdown ≤
      ([100, 50] : List ℚ).getD 1 0 - prefixMax [100, 50] 1 ∧
    0 ≤ (metricsCalculate [100, 50] [-1]).maxDrawdownPct :=
  ⟨(c6_max_drawdown [100, 50] [-1] (by simp) (by simp)).1,
   (c6_max_drawdown [100, 50] [-1] (by simp) (by simp)).2.1,
   (c6_max_drawdown [100, 50] [-1] (by simp) (by simp)).2.2.1 1 (by norm_num),
   (c6_max_drawdown [100, 50] [-1] (by simp) (by simp)).2.2.2.2.2⟩

/-- C7, counterexample: a single trade with pnl exactly 0 is excluded
from both counts, so `winning_trades + losing_trades = 0 ≠ 1 =
num_trades`: the claimed exact partition identity is false. -/
theorem c7_counterexample :
    (metricsCalculate [100, 100] [0]).winningTrades = 0 ∧
    (metricsCalculate [100, 100] [0]).losingTrades = 0 ∧
    (metricsCalculate [100, 100] [0]).numTrades = 1 ∧
    (metricsCalculate [100, 100] [0]).winningTrades +
      (metricsCalculate [100, 100] [0]).losingTrades ≠
      (metricsCalculate [100, 100] [0]).numTrades := by
  norm_num [metricsCalculate]

/-- Three-way partition of a pnl list by sign. -/
theorem filter_sign_partition (l : List ℚ) :
    (l.filter (fun p => decide (p > 0))).length +
      (l.filter (fun p => decide (p < 0))).length +
      (l.filter (fun p => decide (p = 0))).length = l.length := by
  induction l with
  | nil => rfl
  | cons a l ih =>
    rcases lt_trichotomy a 0 with h | h | h
    · simp only [List.filter_cons, decide_eq_true_eq]
      rw [if_neg (by simp; exact h.le), if_pos (by simp [h]),
        if_neg (by simp [h.ne])]
      simp only [List.length_cons]
      omega
    · simp only [List.filter_cons, decide_eq_true_eq]
      rw [if_neg (by simp [h]), if_neg (by simp [h]), if_pos (by simp [h])]
      simp only [List.length_cons]
      omega
    · simp only [List.filter_cons, decide_eq_true_eq]
      rw [if_pos (by simp [h]), if_neg (by simp; exact h.le),
        if_neg (by simp [h.ne'])]
      simp only [List.length_cons]
      omega

/-- C7 (amended): winning trades are exactly the pnl > 0 trades and
losing trades the pnl < 0 trades; zero-pnl trades are excluded from
both, so `winning + losing + zero = num_trades`, with
`winning + losing = num_trades` exactly when no trade has zero pnl;
`win_rate = winning / num_trades * 100`. -/
theorem c7_trade_counts (equity tradePnls : List ℚ) (htr : tradePnls ≠ []) :
    (metricsCalculate equity tradePnls).winningTrades =
      (tradePnls.filter (fun p => decide (p > 0))).length ∧
    (metricsCalculate equity tradePnls).losingTrades =
      (tradePnls.filter (fun p => decide (p < 0))).length ∧
    (metricsCalculate equity tradePnls).numTrades = tradePnls.length ∧
    (metricsCalculate equity tradePnls).winningTrades +
      (metricsCalculate equity tradePnls).losingTrades +
      (tradePnls.filter (fun p => decide (p = 0))).length =
      (metricsCalculate equity tradePnls).numTrades ∧
    (metricsCalculate equity tradePnls).winRate =
      ((metricsCalculate equity tradePnls).winningTrades : ℚ) /
        ((metricsCalculate equity tradePnls).numTrades : ℚ) * 100 ∧
    ((∀ p ∈ tradePnls, p ≠ 0) →
      (metricsCalculate equity tradePnls).winningTrades +
        (metricsCalculate equity tradePnls).losingTrades =
        (metricsCalculate equity tradePnls).numTrades) := by
  have hlen : ¬ tradePnls.length = 0 := fun h => htr (List.length_eq_zero.mp h)
  have hw : (metricsCalculate equity tradePnls).winningTrades =
      (tradePnls.filter (fun p => decide (p > 0))).length := by
    simp [metricsCalculate, hlen]
  have hl : (metricsCalculate equity tradePnls).losingTrades =
      (tradePnls.filter (fun p => decide (p < 0))).length := by
    simp [metricsCalculate, hlen]
  have hn : (metricsCalculate equity tradePnls).numTrades = tradePnls.length := by
    simp [metricsCalculate, hlen]
  refine ⟨hw, hl, hn, ?_, ?_, ?_⟩
  · rw [hw, hl, hn]
    exact filter_sign_partition tradePnls
  · rw [hw, hn]
    simp [metricsCalculate, hlen, Nat.pos_of_ne_zero hlen]
  · intro hz
    have hzero : tradePnls.filter (fun p => decide (p = 0)) = [] :=
      List.filter_eq_nil_iff.mpr (fun a ha => by simpa using hz a ha)
    have := filter_sign_partition tradePnls
    rw [hzero] at this
    rw [hw, hl, hn]
    simpa using this

/-- Witness for C7 (amended), instantiated on the demo trade pnl list
`[989/5, -5/2]` (one winner, one loser, no zero). -/
theorem c7_trade_counts_witness :
    (metricsCalculate [100, 50] [989/5, -(5/2)]).winningTrades =
      (([989/5, -(5/2)] : List ℚ).filter (fun p => decide (p > 0))).length ∧
    (metricsCalculate [100, 50] [989/5, -(5/2)]).numTrades = 2 ∧
    (metricsCalculate [100, 50] [989/5, -(5/2)]).winRate =
      ((metricsCalculate [100, 50] [989/5, -(5/2)]).winningTrades : ℚ) /
        ((metricsCalculate [100, 50] [989/5, -(5/2)]).numTrades : ℚ) * 100 ∧
    (metricsCalculate [100, 50] [989/5, -(5/2)]).winningTrades +
      (metricsCalculate [100, 50] [989/5, -(5/2)]).losingTrades =
      (metricsCalculate [100, 50] [989/5, -(5/2)]).numTrades :=
  ⟨(c7_trade_counts [100, 50] [989/5, -(5/2)] (by simp)).1,
   (c7_trade_counts [100, 50] [989/5, -(5/2)] (by simp)).2.2.1,
   (c7_trade_counts [100, 50] [989/5, -(5/2)] (by simp)).2.2.2.2.1,
   (c7_trade_counts [100, 50] [989/5, -(5/2)] (by simp)).2.2.2.2.2
     (by norm_num)⟩

/-- C8, counterexample: on the all-positive returns sample `[1, 2, 3]`
the reported VaR *decreases* as the confidence level rises from 1/2 to
3/4 — the final `abs` turns a positive percentile return into a positive
"loss", and positive percentiles shrink as confidence grows.  The claim
of monotonicity for every non-empty sample is false. -/
theorem c8_counterexample :
    (1 : ℚ)/2 ≤ 3/4 ∧ (0 : ℚ) < 1/2 ∧ (3 : ℚ)/4 < 1 ∧
    historicalVar [1, 2, 3] (1/2) 1 = 2 ∧
    historicalVar [1, 2, 3] (3/4) 1 = 3/2 ∧
    ¬ (historicalVar [1, 2, 3] (1/2) 1 ≤ historicalVar [1, 2, 3] (3/4) 1) := by
  have h1 : historicalVar [1, 2, 3] (1/2) 1 = 2 := by
    norm_num [historicalVar, npPercentile, interpAt, List.insertionSort,
      List.orderedInsert]
  have h2 : historicalVar [1, 2, 3] (3/4) 1 = 3/2 := by
    norm_num [historicalVar, npPercentile, interpAt, List.insertionSort,
      List.orderedInsert]
  refine ⟨by norm_num, by norm_num, by norm_num, h1, h2, ?_⟩
  rw [h1, h2]
  norm_num

/-- C8 (amended): `historical_var` is monotonically non-decreasing in
the confidence level whenever the empirical percentile at the *lower*
confidence level is ≤ 0 (i.e. the relevant tail is a genuine loss tail
— the situation `abs` was written for); on samples whose relevant
percentile is a positive return the `abs` reverses the order. -/
theorem c8_historical_var_monotone (returns : List ℚ) (c1 c2 V : ℚ)
    (hne : returns ≠ []) (hc1 : 0 ≤ c1) (h12 : c1 ≤ c2) (hc2 : c2 ≤ 1)
    (hV : 0 ≤ V) (htail : npPercentile returns ((1 - c1) * 100) ≤ 0) :
    historicalVar returns c1 V ≤ historicalVar returns c2 V := by
  have hmono : npPercentile returns ((1 - c2) * 100) ≤
      npPercentile returns ((1 - c1) * 100) :=
    npPercentile_mono returns hne (by linarith) (by linarith) (by linarith)
  have hp2 : npPercentile returns ((1 - c2) * 100) ≤ 0 := le_trans hmono htail
  simp only [historicalVar]
  rw [abs_of_nonpos (mul_nonpos_iff.mpr (Or.inr ⟨hp2, hV⟩)),
    abs_of_nonpos (mul_nonpos_iff.mpr (Or.inr ⟨htail, hV⟩))]
  have := mul_le_mul_of_nonneg_right hmono hV
  linarith

/-- Witness for C8 (amended): sample `[-1, -2, 3]` with its median loss,
confidence levels 1/2 ≤ 3/4, portfolio value 1000. -/
theorem c8_historical_var_monotone_witness :
    historicalVar [-1, -2, 3] (1/2) 1000 ≤ historicalVar [-1, -2, 3] (3/4) 1000 :=
  c8_historical_var_monotone [-1, -2, 3] (1/2) (3/4) 1000 (by simp)
    (by norm_num) (by norm_num) (by norm_num) (by norm_num)
    (by norm_num [npPercentile, interpAt, List.insertionSort, List.orderedInsert])

/-- C9, counterexample: starting from cash 100, an accepted buy of 10
shares at 10 leaves cash 0, and a then-accepted sell of one share at
price 1 with commission 5 drives cash to -4 < 0: the source puts no
lower bound on the net proceeds `quantity * price - commission`, so the
cash ≥ 0 invariant is false as claimed. -/
theorem c9_counterexample :
    0 ≤ pfDemo0.cash ∧
    pfDemo0.buy "A" 10 10 0 = .ok pfDemo1 ∧
    pfDemo1.sell "A" 1 1 5 = .ok pfDemo2 ∧
    pfDemo2.cash < 0 := by
  refine ⟨by norm_num [pfDemo0], ?_, ?_, by norm_num [pfDemo2]⟩
  · norm_num [Portfolio.buy, pfDemo0, pfDemo1, mkHolding, setKey, removeKey]
  · norm_num [Portfolio.sell, pfDemo1, pfDemo2, mkHolding, removeKey]
    rfl

/-- C9 (amended): cash stays ≥ 0 after every accepted buy (the check
precedes all mutation); after an accepted sell, cash stays ≥ 0 provided
the commission does not exceed the gross proceeds `quantity * price`
(the code does not guard against negative net proceeds); and a buy
raises exactly when `quantity * price + commission` exceeds cash —
in which case the portfolio is left untouched. -/
theorem c9_cash_invariant :
    (∀ (p : Portfolio) (t : String) (q pr cm : ℚ) (p' : Portfolio),
        p.buy t q pr cm = .ok p' → 0 ≤ p'.cash) ∧
    (∀ (p : Portfolio) (t : String) (q pr cm : ℚ) (p' : Portfolio),
        0 ≤ p.cash → cm ≤ q * pr → p.sell t q pr cm = .ok p' → 0 ≤ p'.cash) ∧
    (∀ (p : Portfolio) (t : String) (q pr cm : ℚ) (e : String),
        p.buy t q pr cm = .error e → p.cash < q * pr + cm) := by
  refine ⟨?_, ?_, ?_⟩
  · intro p t q pr cm p' h
    simp only [Portfolio.buy] at h
    split_ifs at h with hc
    injection h with h
    rw [← h]
    have hle : q * pr + cm ≤ p.cash := not_lt.mp hc
    show 0 ≤ p.cash - (q * pr + cm)
    linarith
  · intro p t q pr cm p' hcash hcm h
    cases hl : p.holdings.lookup t with
    | none => simp [Portfolio.sell, hl] at h
    | some hd =>
      simp only [Portfolio.sell, hl] at h
      split_ifs at h with hq hqq
      · injection h with h
        rw [← h]
        show 0 ≤ p.cash + (q * pr - cm)
        linarith
      · injection h with h
        rw [← h]
        show 0 ≤ p.cash + (q * pr - cm)
        linarith
  · intro p t q pr cm e h
    simp only [Portfolio.buy] at h
    split_ifs at h with hc
    exact hc

/-- Witness for C9 (amended): the accepted demo buy leaves cash 0 ≥ 0;
a commission-free sell at price 2 leaves cash 2 ≥ 0; buying 100 shares
at 10 with only 100 cash raises. -/
theorem c9_cash_invariant_witness :
    0 ≤ pfDemo1.cash ∧ 0 ≤ pfDemo3.cash ∧ pfDemo0.cash < 100 * 10 + 0 :=
  ⟨c9_cash_invariant.1 pfDemo0 "A" 10 10 0 pfDemo1
      (by norm_num [Portfolio.buy, pfDemo0, pfDemo1, mkHolding]),
   c9_cash_invariant.2.1 pfDemo1 "A" 1 2 0 pfDemo3 (by norm_num [pfDemo1])
      (by norm_num)
      (by norm_num [Portfolio.sell, pfDemo1, pfDemo3, mkHolding]; rfl),
   c9_cash_invariant.2.2 pfDemo0 "A" 100 10 0 "Insufficient funds"
      (by norm_num [Portfolio.buy, pfDemo0])⟩

/-- C10: every trade a successful run records is a long trade with
positive quantity (the engine only opens positions with side `"long"`
and size > 0), and a SELL signal with no open position is a strict
no-op — no short position is ever created. -/
theorem c10_long_only :
    (∀ (cfg : EngineCfg) (st : StrategyM) (f : Frame) (res : EngineResult),
        runEngine cfg st f = .ok res →
        ∀ t ∈ res.trades, t.side = "long" ∧ 0 < t.quantity) ∧
    (∀ (cfg : EngineCfg) (ps : ℚ → ℚ → ℚ) (c : Core) (r : SigRow),
        r.signal = -1 → c.position = none → applySignal cfg ps c r = c) := by
  constructor
  · intro cfg st f res h t ht
    obtain ⟨sigs, hok, _, htr, _⟩ := runEngine_ok_inv cfg st f res h
    rw [htr] at ht
    have hcore : CoreOk cfg.commission
        (engineLoop cfg st.positionSize (initState cfg) sigs).core := by
      rw [engineLoop_core]
      exact foldl_applySignal_coreOk cfg st.positionSize sigs _ (initState_coreOk cfg)
    have hok' := (forceClose_coreOk cfg _ sigs.getLast? hcore).2 t ht
    exact ⟨hok'.1, hok'.2.1⟩
  · intro cfg ps c r hs hp
    simp [applySignal, hp, hs]

/-- Witness for C10: the demo run's first trade is long with quantity
10, and a SELL bar against an empty position leaves the state
unchanged. -/
theorem c10_long_only_witness :
    demoTrade.side = "long" ∧ 0 < demoTrade.quantity ∧
    applySignal demoCfg (fixedStrategy demoSigs).positionSize lowCashCore sellRow
      = lowCashCore :=
  ⟨(c10_long_only.1 demoCfg (fixedStrategy demoSigs) demoFrame demoRes rfl demoTrade
      (by rw [demoTrade_eq, demoTrades_eq]; exact List.mem_cons_self _ _)).1,
   (c10_long_only.1 demoCfg (fixedStrategy demoSigs) demoFrame demoRes rfl demoTrade
      (by rw [demoTrade_eq, demoTrades_eq]; exact List.mem_cons_self _ _)).2,
   c10_long_only.2 demoCfg (fixedStrategy demoSigs).positionSize lowCashCore
      sellRow rfl rfl⟩

end Quant
